import Mathlib

/-!
Shallow embedding of the Aurora newsletter builder (`src/build.js`).

The JavaScript core is a set of pure string transformations:
per-type section renderers, a `switch`-based dispatcher
(`generateContentSections`), a markdown-link formatter
(`processMarkdownLinks`), and a placeholder substitution pass
(`replacePlaceholders`).  Sections are dynamic JS objects; fields whose
absence makes the code throw a `TypeError` (arrays/objects that get
`.map`/`.forEach`/property access applied) are modelled as `Option`
fields, and a renderer that would throw returns `none`.  A missing
scalar string field does not throw in JS: template interpolation of
`undefined` produces the literal text "undefined", which `jsStr`
reproduces.  JS `String.replace` with a string pattern replaces only
the first occurrence; with a `g`-flagged regex it replaces every
occurrence scanning left to right without rescanning replacements.
Both are modelled below over `List Char`.
-/

namespace Aurora

/-! ### Definitions: the shallow embedding of build.js -/

/-- Interpolation of a possibly-absent JS string field: `undefined`
interpolates as the literal text "undefined". -/
def jsStr (o : Option String) : String := o.getD "undefined"

/-- JS `Array.prototype.join(sep)` on a list of strings. -/
def joinSep (sep : String) : List String → String
  | [] => ""
  | [x] => x
  | x :: y :: xs => x ++ sep ++ joinSep sep (y :: xs)

/-- Number of (possibly overlapping) occurrences of `pat` in `s`,
counting one per start position. -/
def countOccs (pat : List Char) : List Char → Nat
  | [] => 0
  | c :: cs => (if pat.isPrefixOf (c :: cs) then 1 else 0) + countOccs pat cs

/-- ECMAScript `GetSubstitution` for a replacement string against a
pattern with no capture groups: `$$` inserts a dollar, `$&` the
matched text, a dollar followed by a backquote (U+0060) the text
before the match in the original string, a dollar followed by an
apostrophe (U+0027) the text after the match; a dollar followed by
anything else (including digits, as there are no capture groups)
passes through literally, as does every other character. -/
def getSubstitution (matched before after : List Char) : List Char → List Char
  | [] => []
  | ['$'] => ['$']
  | '$' :: d :: rest =>
    if d = '$' then '$' :: getSubstitution matched before after rest
    else if d = '&' then matched ++ getSubstitution matched before after rest
    else if d = Char.ofNat 96 then before ++ getSubstitution matched before after rest
    else if d = Char.ofNat 39 then after ++ getSubstitution matched before after rest
    else '$' :: getSubstitution matched before after (d :: rest)
  | c :: rest => c :: getSubstitution matched before after rest

/-- Worker for plain-string-pattern `String.replace`: `pre` is the
already-scanned prefix of the original string, needed by the
`$`-escape expansion of the replacement. -/
def jsReplaceFirstGo (pat repl : List Char) : List Char → List Char → List Char
  | pre, [] => if pat.isEmpty then getSubstitution pat pre [] repl else []
  | pre, c :: cs =>
    if pat.isPrefixOf (c :: cs) then
      getSubstitution pat pre ((c :: cs).drop pat.length) repl ++
        (c :: cs).drop pat.length
    else c :: jsReplaceFirstGo pat repl (pre ++ [c]) cs

/-- JS `s.replace(pat, repl)` with a plain-string pattern: replace the
first occurrence only (identity when there is none), expanding the
`$`-escapes of `repl` per `GetSubstitution`. -/
def jsReplaceFirstList (pat repl s : List Char) : List Char :=
  jsReplaceFirstGo pat repl [] s

/-- Fuelled worker for global replacement; the fuel only serves to
make the recursion structural, `jsReplaceAllList` always supplies
enough of it.  `pre` is the already-scanned prefix of the original
string, needed by the `$`-escape expansion of the replacement. -/
def jsReplaceAllGo (pat repl : List Char) : Nat → List Char → List Char → List Char
  | _, _, [] => []
  | 0, _, s => s
  | fuel + 1, pre, c :: cs =>
    if pat ≠ [] ∧ pat.isPrefixOf (c :: cs) = true then
      getSubstitution pat pre ((c :: cs).drop pat.length) repl ++
        jsReplaceAllGo pat repl fuel (pre ++ pat) ((c :: cs).drop pat.length)
    else
      c :: jsReplaceAllGo pat repl fuel (pre ++ [c]) cs

/-- JS `s.replace(/pat/g, repl)` for a literal pattern with no capture
groups: replace every occurrence, scanning left to right, never
rescanning a replacement, expanding the `$`-escapes of `repl` per
`GetSubstitution`.  All patterns used by the builder are fixed
non-empty placeholder tokens, so the empty-pattern edge case never
arises. -/
def jsReplaceAllList (pat repl s : List Char) : List Char :=
  jsReplaceAllGo pat repl s.length [] s

/-- String-level wrapper for first-occurrence replacement. -/
def jsReplaceFirst (s pat repl : String) : String :=
  String.mk (jsReplaceFirstList pat.data repl.data s.data)

/-- String-level wrapper for global replacement. -/
def jsReplaceAll (s pat repl : String) : String :=
  String.mk (jsReplaceAllList pat.data repl.data s.data)

/-- String-level occurrence count. -/
def countOccsS (pat s : String) : Nat := countOccs pat.data s.data

/-- Attempt to match `[label](url)` at the head of the input.  When
`dropWhile (· != ']')` returns a non-empty list its head is necessarily
`']'` (and likewise `')'` for the inner drop), so the head positions
are matched with wildcards. -/
def matchAt : List Char → Option (List Char × List Char × List Char)
  | [] => none
  | c :: cs =>
    if c = '[' then
      match cs.dropWhile (fun x => x != ']') with
      | [] => none
      | _ :: rest1 =>
        match rest1 with
        | [] => none
        | d :: r2 =>
          if d = '(' then
            if cs.takeWhile (fun x => x != ']') = [] then none
            else
              match r2.dropWhile (fun x => x != ')') with
              | [] => none
              | _ :: rest2 =>
                if r2.takeWhile (fun x => x != ')') = [] then none
                else some (cs.takeWhile (fun x => x != ']'),
                           r2.takeWhile (fun x => x != ')'), rest2)
          else none
    else none

/-- Leftmost `[label](url)` match: the unchanged text before it, the
label, the url, and the remaining text after the match. -/
def findLink : List Char → Option (List Char × List Char × List Char × List Char)
  | [] => none
  | c :: cs =>
    match matchAt (c :: cs) with
    | some (l, u, rest) => some ([], l, u, rest)
    | none =>
      match findLink cs with
      | some (pre, l, u, rest) => some (c :: pre, l, u, rest)
      | none => none

/-- The anchor the replacement template produces: label and url are
inserted verbatim. -/
def anchorFrag (label url : List Char) : List Char :=
  "<a href=\"".data ++ url ++ "\">".data ++ label ++ "</a>".data

/-- Fuelled worker for global link rewriting; the fuel only makes the
recursion structural and `processAux` always supplies enough of it. -/
def processGo : Nat → List Char → List Char
  | 0, s => s
  | fuel + 1, s =>
    match findLink s with
    | none => s
    | some (pre, l, u, rest) => pre ++ anchorFrag l u ++ processGo fuel rest

/-- Global markdown-link rewriting over a character list. -/
def processAux (s : List Char) : List Char := processGo s.length s

/-- Convert markdown-style links to HTML (build.js:296-298). -/
def processMarkdownLinks (text : String) : String :=
  String.mk (processAux text.data)

structure HighlightBox where
  title : String
  items : List String

structure StatItem where
  number : String
  label : String

structure Stats where
  title : String
  items : List StatItem

structure FeatureCard where
  title : String
  content : String

structure Subsection where
  title : String
  content : String
  feature_cards : List FeatureCard

structure Phase where
  title : String
  content : String

structure Contact where
  text : String
  email : String

structure Button where
  text : String
  url : String

structure Involvement where
  title : String
  items : List String

structure Feedback where
  text : String
  buttons : List Button

structure RecordingLink where
  text : String
  title : String
  url : String

structure Features where
  intro : String
  items : List String

structure ResourceLink where
  text : String
  url : String

structure Resources where
  title : String
  intro : String
  links : List ResourceLink

structure Section where
  type : String
  title : Option String := none
  content : Option String := none
  highlight_box : Option HighlightBox := none
  stats : Option Stats := none
  subsections : Option (List Subsection) := none
  code_block : Option (List String) := none
  phases : Option (List Phase) := none
  list_items : Option (List String) := none
  contact : Option Contact := none
  buttons : Option (List Button) := none
  involvement : Option Involvement := none
  community : Option String := none
  feedback : Option Feedback := none
  recording_links : Option (List RecordingLink) := none
  features : Option Features := none
  additional_content : Option (List String) := none
  resources : Option Resources := none

/-- Renderer for `main_announcement` sections (build.js:93-123). -/
def generateMainAnnouncement (s : Section) : Option String :=
  let base := "<div class=\"content-section\">\n    <h2>" ++ jsStr s.title ++
    "</h2>\n    <p>" ++ jsStr s.content ++ "</p>"
  let withHb :=
    match s.highlight_box with
    | none => base
    | some hb => base ++ "\n\n    <div class=\"highlight-box\">\n        <h3>" ++
        hb.title ++ "</h3>\n        <ul>\n            " ++
        joinSep "\n            " (hb.items.map (fun item => "<li>" ++ item ++ "</li>")) ++
        "\n        </ul>\n    </div>"
  let withStats :=
    match s.stats with
    | none => withHb
    | some st => withHb ++ "\n\n    <div class=\"stats-section\">\n        <h3>" ++
        st.title ++ "</h3>\n        <div class=\"stats-grid\">\n            " ++
        joinSep "\n            " (st.items.map (fun stat =>
          "<div class=\"stat-item\">\n                <span class=\"stat-number\">" ++
          stat.number ++ "</span>\n                <span class=\"stat-label\">" ++
          stat.label ++ "</span>\n            </div>")) ++
        "\n        </div>\n    </div>"
  some (withStats ++ "\n</div>")

/-- Renderer for `technology_stack` sections (build.js:128-148).  Note
that the code never emits `section.content` for this type. -/
def generateTechnologyStack (s : Section) : Option String :=
  match s.subsections with
  | none => none
  | some subs =>
    some ((subs.foldl (fun acc sub => acc ++
        "\n\n    <h3>" ++ sub.title ++ "</h3>\n    <p>" ++ sub.content ++
        "</p>\n\n    <div class=\"feature-grid\">\n        " ++
        joinSep "\n        " (sub.feature_cards.map (fun card =>
          "<div class=\"feature-card\">\n            <h4>" ++ card.title ++
          "</h4>\n            <p>" ++ card.content ++ "</p>\n        </div>")) ++
        "\n    </div>")
      ("<div class=\"content-section\">\n    <h2>" ++ jsStr s.title ++ "</h2>")) ++
      "\n</div>")

/-- Renderer for `container_images` sections (build.js:153-162). -/
def generateContainerImages (s : Section) : Option String :=
  match s.code_block with
  | none => none
  | some cb =>
    some ("<div class=\"content-section\">\n    <h2>" ++ jsStr s.title ++
      "</h2>\n    <p>" ++ jsStr s.content ++
      "</p>\n\n    <div class=\"code-block\">\n        " ++
      joinSep "\n        " (cb.map (fun code => "<p>" ++ code ++ "</p>")) ++
      "\n    </div>\n</div>")

/-- Renderer for `implementation` sections (build.js:167-179). -/
def generateImplementation (s : Section) : Option String :=
  match s.phases with
  | none => none
  | some ps =>
    some ((ps.foldl (fun acc phase => acc ++
        "\n\n    <h4>" ++ phase.title ++ "</h4>\n    <p>" ++ phase.content ++ "</p>")
      ("<div class=\"content-section\">\n    <h2>" ++ jsStr s.title ++
        "</h2>\n    <p>" ++ jsStr s.content ++ "</p>")) ++
      "\n</div>")

/-- Renderer for `support` sections (build.js:184-199). -/
def generateSupport (s : Section) : Option String :=
  match s.list_items with
  | none => none
  | some items =>
    let base := "<div class=\"content-section\">\n    <h2>" ++ jsStr s.title ++
      "</h2>\n    <p>" ++ jsStr s.content ++ "</p>\n\n    <ul>\n        " ++
      joinSep "\n        " (items.map (fun item => "<li>" ++ item ++ "</li>")) ++
      "\n    </ul>"
    let withContact :=
      match s.contact with
      | none => base
      | some ct => base ++ "\n\n    <p><strong>Contact:</strong> " ++ ct.text ++
          " <a href=\"mailto:" ++ ct.email ++ "\">" ++ ct.email ++ "</a></p>"
    some (withContact ++ "\n</div>")

/-- Renderer for `cta` sections (build.js:204-212). -/
def generateCTA (s : Section) : Option String :=
  match s.buttons with
  | none => none
  | some btns =>
    some ("<div class=\"cta-section\">\n    <h3>" ++ jsStr s.title ++
      "</h3>\n    <p>" ++ jsStr s.content ++ "</p>\n    " ++
      joinSep "\n    " (btns.map (fun b =>
        "<a href=\"" ++ b.url ++ "\" class=\"cta-button\">" ++ b.text ++ "</a>")) ++
      "\n</div>")

/-- Renderer for `aurora` sections (build.js:217-238).  `content` and
`community` pass through `processMarkdownLinks`, which throws when the
field is absent; `involvement` and `feedback` are dereferenced
unconditionally. -/
def generateAurora (s : Section) : Option String :=
  match s.content, s.involvement, s.community, s.feedback with
  | some c, some inv, some comm, some fb =>
    some ("<!-- Aurora Section -->\n<div class=\"aurora-section\">\n    <h2>" ++
      jsStr s.title ++ "</h2>\n    <p>" ++ processMarkdownLinks c ++
      "</p>\n    \n    <h3>" ++ inv.title ++ "</h3>\n    <ul>\n        " ++
      joinSep "\n        " (inv.items.map (fun item => "<li>" ++ item ++ "</li>")) ++
      "\n    </ul>\n    \n    <p>" ++ processMarkdownLinks comm ++
      "</p>\n    \n    <div class=\"aurora-cta\">\n        <p><strong>" ++
      fb.text ++ "</strong></p>\n        " ++
      joinSep "\n        " (fb.buttons.map (fun b =>
        "<a href=\"" ++ b.url ++ "\" target=\"_blank\">" ++ b.text ++ "</a>")) ++
      "\n    </div>\n</div>")
  | _, _, _, _ => none

/-- Renderer for `ml_capabilities` sections (build.js:243-281).  All
sub-blocks are guarded by truthiness checks, so this renderer never
throws. -/
def generateMLCapabilities (s : Section) : Option String :=
  let base := "<div class=\"content-section\">\n    <h2>" ++ jsStr s.title ++
    "</h2>\n    <p>" ++ jsStr s.content ++ "</p>"
  let withRec :=
    match s.recording_links with
    | none => base
    | some links => base ++ "\n    <ul>\n        " ++
        joinSep "\n        " (links.map (fun link =>
          "<li><strong>" ++ link.text ++ ":</strong> <a href=\"" ++ link.url ++
          "\" target=\"_blank\">" ++ link.title ++ "</a></li>")) ++
        "\n    </ul>"
  let withFeat :=
    match s.features with
    | none => withRec
    | some f => withRec ++ "\n    <p>" ++ f.intro ++ "</p>\n    <ul>\n        " ++
        joinSep "\n        " (f.items.map (fun item => "<li>" ++ item ++ "</li>")) ++
        "\n    </ul>"
  let withAdd :=
    match s.additional_content with
    | none => withFeat
    | some cs => cs.foldl (fun acc content => acc ++ "\n    <p>" ++ content ++ "</p>") withFeat
  let withRes :=
    match s.resources with
    | none => withAdd
    | some r => withAdd ++ "\n    <h3>" ++ r.title ++ "</h3>\n    <p>" ++ r.intro ++
        "</p>\n    <ul>\n        " ++
        joinSep "\n        " (r.links.map (fun link =>
          "<li><a href=\"" ++ link.url ++ "\" target=\"_blank\">" ++ link.text ++
          "</a></li>")) ++
        "\n    </ul>"
  some (withRes ++ "\n</div>")

/-- Generic fallback renderer (build.js:286-291). -/
def generateGenericSection (s : Section) : Option String :=
  some ("<div class=\"content-section\">\n    <h2>" ++ jsStr s.title ++
    "</h2>\n    <p>" ++ jsStr s.content ++ "</p>\n</div>")

/-- The eight `case` labels of the dispatcher's `switch`. -/
def declaredTypes : List String :=
  ["main_announcement", "technology_stack", "container_images", "implementation",
   "support", "cta", "ml_capabilities", "aurora"]

/-- The `switch (section.type)` dispatch inside
`generateContentSections` (build.js:56-75). -/
def renderSection (s : Section) : Option String :=
  match s.type with
  | "main_announcement" => generateMainAnnouncement s
  | "technology_stack" => generateTechnologyStack s
  | "container_images" => generateContainerImages s
  | "implementation" => generateImplementation s
  | "support" => generateSupport s
  | "cta" => generateCTA s
  | "aurora" => generateAurora s
  | "ml_capabilities" => generateMLCapabilities s
  | _ => generateGenericSection s

/-- JS `Array.prototype.map` over the dispatcher: the first thrown
`TypeError` aborts the whole map, hence the whole track render. -/
def renderAll : List Section → Option (List String)
  | [] => some []
  | s :: ss =>
    match renderSection s, renderAll ss with
    | some f, some fs => some (f :: fs)
    | _, _ => none

/-- The fixed call-to-action fragment appended in email mode
(build.js:79-84). -/
def emailCtaFragment : String :=
  "\n<div class=\"content-section\">\n    <p style=\"text-align: center;\">\n        <a href=\"https://simardeep1792.github.io/aurora-newsletter/2025-06-gc-artifacts.html\">Read the full version of the newsletter</a>\n    </p>\n</div>"

/-- Track rendering (build.js:49-88): in email mode only the first
section survives `slice(0, 1)` and the call-to-action fragment is
appended unconditionally; fragments are joined with one blank line. -/
def generateContentSections (isEmail : Bool) (sections : List Section) : Option String :=
  let toProcess := if isEmail then sections.take 1 else sections
  match renderAll toProcess with
  | none => none
  | some frags =>
    let html := joinSep "\n\n" frags
    some (if isEmail then html ++ emailCtaFragment else html)

structure Meta where
  title : String
  date : String := ""
  edition : String := ""

structure Header where
  sub_title : String
  subtitle : String

structure Hero where
  title : String
  description : String

/-- The parsed content document: the two language tracks are optional,
and `none` covers both an absent track and a track object without a
`sections` array (the code guards `data.x && data.x.sections`). -/
structure ContentDocument where
  meta : Meta
  header : Header
  hero : Hero
  english : Option (List Section) := none
  french : Option (List Section) := none

/-- Scalar token for a key: the braces are literal characters. -/
def tok (key : String) : String := "\x7b\x7b" ++ key ++ "\x7d\x7d"

/-- The fixed fallback fragment substituted when the French track is
absent (build.js:331). -/
def frenchFallback : String :=
  "<div class=\"content-section\"><p>French content coming soon...</p></div>"

/-- The five scalar replacements (build.js:307-318), applied in
insertion order, each with a `g`-flagged regex, i.e. at every
occurrence. -/
def scalarPass (t : String) (d : ContentDocument) : String :=
  jsReplaceAll
    (jsReplaceAll
      (jsReplaceAll
        (jsReplaceAll
          (jsReplaceAll t (tok "TITLE") d.meta.title)
          (tok "SUBTITLE") d.header.sub_title)
        (tok "TAGLINE") d.header.subtitle)
      (tok "HERO_TITLE") d.hero.title)
    (tok "HERO_DESCRIPTION") d.hero.description

/-- Placeholder substitution (build.js:303-335): scalar tokens are
replaced globally; the two track tokens use plain-string `replace`,
i.e. first occurrence only; an absent French track substitutes the
fixed fallback fragment. -/
def replacePlaceholders (isEmail : Bool) (template : String) (d : ContentDocument) :
    Option String :=
  let r := scalarPass template d
  let step2 : Option String :=
    match d.english with
    | none => some r
    | some secs =>
      (generateContentSections isEmail secs).map
        (fun ec => jsReplaceFirst r (tok "ENGLISH_CONTENT") ec)
  match step2 with
  | none => none
  | some r2 =>
    match d.french with
    | none => some (jsReplaceFirst r2 (tok "FRENCH_CONTENT") frenchFallback)
    | some secs =>
      (generateContentSections isEmail secs).map
        (fun fc => jsReplaceFirst r2 (tok "FRENCH_CONTENT") fc)

/-- Boolean substring test deciding `strContains`. -/
def subListB (needle : List Char) : List Char → Bool
  | [] => needle.isEmpty
  | c :: cs => needle.isPrefixOf (c :: cs) || subListB needle cs

/-- The needle occurs verbatim somewhere in the haystack;
`strContains_iff` below gives the decomposition characterisation. -/
def strContains (hay needle : String) : Prop :=
  subListB needle.data hay.data = true

instance (hay needle : String) : Decidable (strContains hay needle) :=
  inferInstanceAs (Decidable (_ = true))

/-- Sample sections used by the witnesses below. -/
def sampleIntro : Section :=
  { type := "intro", title := some "TA", content := some "CA" }

def sampleOutro : Section :=
  { type := "outro", title := some "TB", content := some "CB" }

def sampleThird : Section :=
  { type := "third", title := some "TX", content := some "CX" }

def sampleDoc : ContentDocument :=
  { meta := { title := "X" }, header := { sub_title := "S", subtitle := "G" },
    hero := { title := "H", description := "D" } }

/-- The general text/label/url alternation feeding the Link Formatter:
`t₀ [l₁](u₁) t₁ [l₂](u₂) … tail`. -/
def mkLinkInput : List (String × String × String) → String → String
  | [], tail => tail
  | (t, l, u) :: ps, tail =>
    t ++ ("[" ++ l ++ "](" ++ u ++ ")") ++ mkLinkInput ps tail

/-- The expected rewriting of `mkLinkInput`: every `[label](url)`
becomes an anchor whose href is the url and whose text is the label;
all the interleaved text passes through unchanged. -/
def mkLinkOutput : List (String × String × String) → String → String
  | [], tail => tail
  | (t, l, u) :: ps, tail =>
    t ++ ("<a href=\"" ++ u ++ "\">" ++ l ++ "</a>") ++ mkLinkOutput ps tail

/-- C2 counterexample: the `technology_stack` renderer never emits
`section.content` (build.js:128-148), so a section of that type whose
content is the marker string "CONTENT-MARKER" produces a fragment not
containing it, refuting "the dispatcher's rendered fragment contains
... its content string verbatim" for that declared type. -/
def techNoContent : Section :=
  { type := "technology_stack", title := some "T",
    content := some "CONTENT-MARKER", subsections := some [] }

/-- A document whose title is the ECMAScript substitution pattern `$&`
(reinsert the matched text), exhibiting the `$`-escape behaviour of
`String.replace`. -/
def dollarDoc : ContentDocument :=
  { meta := { title := "$&" }, header := { sub_title := "", subtitle := "" },
    hero := { title := "", description := "" } }

/-- A document with a one-section English track, used to exercise the
rendered-track-content substitution. -/
def engDoc : ContentDocument :=
  { meta := { title := "X" }, header := { sub_title := "S", subtitle := "G" },
    hero := { title := "H", description := "D" },
    english := some [sampleIntro] }

/-- A section with an undeclared type, used by the dispatch witnesses. -/
def mysterySec : Section :=
  { type := "mystery", title := some "TA", content := some "CA" }

/-! ### Theorems -/

theorem getSubstitution_no_dollar (m b a : List Char) :
    ∀ {repl : List Char}, '$' ∉ repl → getSubstitution m b a repl = repl := by
  intro repl
  induction repl with
  | nil => intro _; rfl
  | cons c cs ih =>
    intro hd
    have hc : c ≠ '$' := fun he => hd (he ▸ List.mem_cons_self c cs)
    have hcs : '$' ∉ cs := fun hm => hd (List.mem_cons_of_mem c hm)
    have ihc := ih hcs
    unfold getSubstitution
    split <;> simp_all

theorem jsReplaceAllGo_congr (pat repl : List Char) :
    ∀ fuel fuel' pre s, s.length ≤ fuel → s.length ≤ fuel' →
    jsReplaceAllGo pat repl fuel pre s = jsReplaceAllGo pat repl fuel' pre s := by
  intro fuel
  induction fuel with
  | zero =>
    intro fuel' pre s hs _
    have : s = [] := List.eq_nil_of_length_eq_zero (Nat.le_zero.mp hs)
    subst this
    cases fuel' <;> rfl
  | succ f ih =>
    intro fuel' pre s hs hs'
    cases s with
    | nil => cases fuel' <;> rfl
    | cons c cs =>
      cases fuel' with
      | zero => simp at hs'
      | succ f' =>
        simp only [jsReplaceAllGo]
        by_cases h : pat ≠ [] ∧ pat.isPrefixOf (c :: cs) = true
        · rw [if_pos h, if_pos h]
          have hp : 0 < pat.length := List.length_pos.mpr h.1
          have hlen : ((c :: cs).drop pat.length).length ≤ f := by
            simp only [List.length_drop, List.length_cons]
            simp only [List.length_cons] at hs
            omega
          have hlen' : ((c :: cs).drop pat.length).length ≤ f' := by
            simp only [List.length_drop, List.length_cons]
            simp only [List.length_cons] at hs'
            omega
          rw [ih f' _ _ hlen hlen']
        · rw [if_neg h, if_neg h]
          have hlen : cs.length ≤ f := by
            simp only [List.length_cons] at hs; omega
          have hlen' : cs.length ≤ f' := by
            simp only [List.length_cons] at hs'; omega
          rw [ih f' _ _ hlen hlen']

theorem jsReplaceAllGo_pre_irrel {repl : List Char} (hd : '$' ∉ repl)
    (pat : List Char) :
    ∀ fuel pre pre' s,
    jsReplaceAllGo pat repl fuel pre s = jsReplaceAllGo pat repl fuel pre' s := by
  intro fuel
  induction fuel with
  | zero => intro pre pre' s; cases s <;> rfl
  | succ f ih =>
    intro pre pre' s
    cases s with
    | nil => rfl
    | cons c cs =>
      simp only [jsReplaceAllGo]
      by_cases h : pat ≠ [] ∧ pat.isPrefixOf (c :: cs) = true
      · rw [if_pos h, if_pos h,
          getSubstitution_no_dollar _ _ _ hd, getSubstitution_no_dollar _ _ _ hd,
          ih (pre ++ pat) (pre' ++ pat) _]
      · rw [if_neg h, if_neg h, ih (pre ++ [c]) (pre' ++ [c]) _]

theorem jsReplaceAllList_nil (pat repl : List Char) :
    jsReplaceAllList pat repl [] = [] := rfl

theorem jsReplaceAllList_cons_pos {pat : List Char} (repl : List Char)
    {c : Char} {cs : List Char} (hd : '$' ∉ repl)
    (h1 : pat ≠ []) (h2 : pat.isPrefixOf (c :: cs) = true) :
    jsReplaceAllList pat repl (c :: cs) =
      repl ++ jsReplaceAllList pat repl ((c :: cs).drop pat.length) := by
  unfold jsReplaceAllList
  simp only [List.length_cons, jsReplaceAllGo, if_pos (And.intro h1 h2)]
  rw [getSubstitution_no_dollar _ _ _ hd]
  congr 1
  have hp : 0 < pat.length := List.length_pos.mpr h1
  refine (jsReplaceAllGo_pre_irrel hd pat cs.length _ [] _).trans ?_
  exact jsReplaceAllGo_congr pat repl _ _ [] _
    (by simp only [List.length_drop, List.length_cons]; omega)
    (Nat.le_refl _)

theorem jsReplaceAllList_cons_neg {pat : List Char} (repl : List Char)
    {c : Char} {cs : List Char} (hd : '$' ∉ repl)
    (h : ¬ (pat ≠ [] ∧ pat.isPrefixOf (c :: cs) = true)) :
    jsReplaceAllList pat repl (c :: cs) =
      c :: jsReplaceAllList pat repl cs := by
  unfold jsReplaceAllList
  simp only [List.length_cons, jsReplaceAllGo, if_neg h]
  congr 1
  exact jsReplaceAllGo_pre_irrel hd pat cs.length _ [] _

theorem dropWhile_head_false (p : Char → Bool) :
    ∀ {l : List Char} {c : Char} {cs : List Char},
    l.dropWhile p = c :: cs → p c = false := by
  intro l
  induction l with
  | nil => intro c cs h; simp at h
  | cons a as ih =>
    intro c cs h
    by_cases ha : p a = true
    · rw [List.dropWhile_cons_of_pos ha] at h
      exact ih h
    · rw [List.dropWhile_cons_of_neg ha] at h
      obtain ⟨h1, -⟩ := List.cons_eq_cons.mp h
      subst h1
      simpa using ha

theorem bne_eq_false_iff (a b : Char) : ((a != b) = false) ↔ a = b := by
  simp [bne]

theorem matchAt_eq_some {s l u r : List Char}
    (h : matchAt s = some (l, u, r)) :
    s = '[' :: (l ++ ']' :: '(' :: (u ++ ')' :: r)) := by
  cases s with
  | nil => simp [matchAt] at h
  | cons c cs =>
    simp only [matchAt] at h
    by_cases hc : c = '['
    · rw [if_pos hc] at h
      subst hc
      cases hdrop : cs.dropWhile (fun x => x != ']') with
      | nil => rw [hdrop] at h; simp at h
      | cons e rest1 =>
        rw [hdrop] at h
        cases rest1 with
        | nil => simp at h
        | cons d r2 =>
          dsimp only at h
          by_cases hd : d = '('
          · rw [if_pos hd] at h
            subst hd
            split at h
            · simp at h
            · cases hdrop2 : r2.dropWhile (fun x => x != ')') with
              | nil => rw [hdrop2] at h; simp at h
              | cons e2 rest2 =>
                rw [hdrop2] at h
                dsimp only at h
                split at h
                · simp at h
                · obtain ⟨h1, h2, h3⟩ :
                      cs.takeWhile (fun x => x != ']') = l ∧
                      r2.takeWhile (fun x => x != ')') = u ∧ rest2 = r := by
                    simpa using h
                  have he0 := dropWhile_head_false (fun x => x != ']') hdrop
                  have he : e = ']' :=
                    (bne_eq_false_iff e ']').mp (by simpa using he0)
                  have he20 := dropWhile_head_false (fun x => x != ')') hdrop2
                  have he2 : e2 = ')' :=
                    (bne_eq_false_iff e2 ')').mp (by simpa using he20)
                  subst he; subst he2
                  have e1 : cs.takeWhile (fun x => x != ']') ++
                      (']' :: '(' :: r2) = cs := by
                    rw [← hdrop]; exact List.takeWhile_append_dropWhile _ _
                  have e2' : r2.takeWhile (fun x => x != ')') ++
                      (')' :: rest2) = r2 := by
                    rw [← hdrop2]; exact List.takeWhile_append_dropWhile _ _
                  subst h1; subst h2; subst h3
                  conv_lhs => rw [← e1]
                  conv_lhs => rw [← e2']
          · rw [if_neg hd] at h
            simp at h
    · rw [if_neg hc] at h
      simp at h

theorem findLink_decomp {s p l u r : List Char}
    (h : findLink s = some (p, l, u, r)) :
    s = p ++ '[' :: (l ++ ']' :: '(' :: (u ++ ')' :: r)) := by
  induction s generalizing p with
  | nil => simp [findLink] at h
  | cons c cs ih =>
    simp only [findLink] at h
    cases hm : matchAt (c :: cs) with
    | some t =>
      obtain ⟨l', u', r'⟩ := t
      rw [hm] at h
      obtain ⟨h1, h2, h3, h4⟩ :
          ([] : List Char) = p ∧ l' = l ∧ u' = u ∧ r' = r := by simpa using h
      subst h1; subst h2; subst h3; subst h4
      simpa using matchAt_eq_some hm
    | none =>
      rw [hm] at h
      cases hf : findLink cs with
      | some t =>
        obtain ⟨p', l', u', r'⟩ := t
        rw [hf] at h
        obtain ⟨h1, h2, h3, h4⟩ :
            c :: p' = p ∧ l' = l ∧ u' = u ∧ r' = r := by simpa using h
        subst h1; subst h2; subst h3; subst h4
        simpa using ih hf
      | none => rw [hf] at h; simp at h

theorem findLink_length {s p l u r : List Char}
    (h : findLink s = some (p, l, u, r)) : r.length < s.length := by
  have := findLink_decomp h
  subst this
  simp [List.length_append]
  omega

theorem processGo_congr :
    ∀ fuel fuel' s, s.length ≤ fuel → s.length ≤ fuel' →
    processGo fuel s = processGo fuel' s := by
  intro fuel
  induction fuel with
  | zero =>
    intro fuel' s hs _
    have : s = [] := List.eq_nil_of_length_eq_zero (Nat.le_zero.mp hs)
    subst this
    cases fuel' with
    | zero => rfl
    | succ f' => simp [processGo, findLink]
  | succ f ih =>
    intro fuel' s hs hs'
    cases fuel' with
    | zero =>
      have : s = [] := List.eq_nil_of_length_eq_zero (Nat.le_zero.mp hs')
      subst this
      simp [processGo, findLink]
    | succ f' =>
      simp only [processGo]
      cases hm : findLink s with
      | none => rfl
      | some t =>
        obtain ⟨pre, l, u, rest⟩ := t
        have hr : rest.length < s.length := findLink_length hm
        dsimp only
        rw [ih f' rest (by omega) (by omega)]

theorem processAux_none {s : List Char} (h : findLink s = none) :
    processAux s = s := by
  cases s with
  | nil => rfl
  | cons c cs => simp [processAux, processGo, h]

theorem processAux_some {s p l u r : List Char}
    (h : findLink s = some (p, l, u, r)) :
    processAux s = p ++ anchorFrag l u ++ processAux r := by
  have hlen : r.length < s.length := findLink_length h
  cases hs : s.length with
  | zero =>
    have : s = [] := List.eq_nil_of_length_eq_zero hs
    subst this
    simp [findLink] at h
  | succ n =>
    unfold processAux
    rw [hs]
    simp only [processGo, h]
    congr 1
    exact processGo_congr n r.length r (by omega) (Nat.le_refl _)

theorem strData_append (s t : String) : (s ++ t).data = s.data ++ t.data := by
  cases s; cases t; rfl

theorem strEq_of_data {s t : String} (h : s.data = t.data) : s = t := by
  cases s; cases t; exact congrArg String.mk h

theorem isPrefixOf_decomp {p s : List Char} (h : p.isPrefixOf s = true) :
    s = p ++ s.drop p.length := by
  induction p generalizing s with
  | nil => simp
  | cons a as ih =>
    cases s with
    | nil => simp [List.isPrefixOf] at h
    | cons b bs =>
      simp only [List.isPrefixOf, Bool.and_eq_true] at h
      obtain ⟨h1, h2⟩ := h
      have : a = b := eq_of_beq h1
      subst this
      simpa using ih h2

theorem isPrefixOf_append_self (p t : List Char) : p.isPrefixOf (p ++ t) = true := by
  induction p with
  | nil => simp [List.isPrefixOf]
  | cons a as ih => simp [List.isPrefixOf, ih]

theorem isPrefixOf_append_of_le {p a b : List Char}
    (h : p.isPrefixOf (a ++ b) = true) (hle : p.length ≤ a.length) :
    p.isPrefixOf a = true := by
  induction p generalizing a with
  | nil => simp [List.isPrefixOf]
  | cons x xs ih =>
    cases a with
    | nil => simp at hle
    | cons y ys =>
      simp only [List.cons_append, List.isPrefixOf, Bool.and_eq_true] at h ⊢
      exact ⟨h.1, ih h.2 (by simpa using hle)⟩

theorem subListB_iff (needle hay : List Char) :
    subListB needle hay = true ↔ ∃ l r, hay = (l ++ needle) ++ r := by
  induction hay with
  | nil =>
    simp only [subListB, List.isEmpty_iff]
    constructor
    · intro h; exact ⟨[], [], by simp [h]⟩
    · rintro ⟨l, r, h⟩
      rcases List.append_eq_nil.mp h.symm with ⟨h1, h2⟩
      rcases List.append_eq_nil.mp h1 with ⟨-, h3⟩
      exact h3
  | cons c cs ih =>
    simp only [subListB, Bool.or_eq_true]
    constructor
    · rintro (h | h)
      · exact ⟨[], (c :: cs).drop needle.length, by simpa using isPrefixOf_decomp h⟩
      · obtain ⟨l, r, hl⟩ := ih.mp h
        exact ⟨c :: l, r, by simp [hl]⟩
    · rintro ⟨l, r, hl⟩
      cases l with
      | nil =>
        left
        have : c :: cs = needle ++ r := by simpa using hl
        rw [this]
        exact isPrefixOf_append_self needle r
      | cons x xs =>
        right
        refine ih.mpr ⟨xs, r, ?_⟩
        simpa using (List.cons_eq_cons.mp (by simpa using hl)).2

theorem strContains_iff (hay needle : String) :
    strContains hay needle ↔
      ∃ l r, hay.data = (l ++ needle.data) ++ r :=
  subListB_iff needle.data hay.data

theorem strContains_mid (a n b : String) : strContains (a ++ n ++ b) n :=
  (strContains_iff _ _).mpr ⟨a.data, b.data, by simp [strData_append]⟩

theorem strContains_self (s : String) : strContains s s :=
  (strContains_iff _ _).mpr ⟨[], [], by simp⟩

theorem strContains_append_left (x : String) {h n : String}
    (hc : strContains h n) : strContains (x ++ h) n := by
  obtain ⟨l, r, hl⟩ := (strContains_iff _ _).mp hc
  exact (strContains_iff _ _).mpr ⟨x.data ++ l, r, by simp [strData_append, hl]⟩

theorem strContains_append_right (x : String) {h n : String}
    (hc : strContains h n) : strContains (h ++ x) n := by
  obtain ⟨l, r, hl⟩ := (strContains_iff _ _).mp hc
  exact (strContains_iff _ _).mpr ⟨l, r ++ x.data, by simp [strData_append, hl]⟩

theorem strContains_foldl {α : Type} (F : String → α → String)
    (hF : ∀ acc x n, strContains acc n → strContains (F acc x) n)
    (l : List α) (init n : String) (h : strContains init n) :
    strContains (l.foldl F init) n := by
  induction l generalizing init with
  | nil => simpa using h
  | cons x xs ih => exact ih (F init x) (hF init x n h)

theorem countOccs_cons (pat : List Char) (c : Char) (cs : List Char) :
    countOccs pat (c :: cs) =
      (if pat.isPrefixOf (c :: cs) then 1 else 0) + countOccs pat cs := rfl

theorem countOccs_le_append (pat x y : List Char) :
    countOccs pat y ≤ countOccs pat (x ++ y) := by
  induction x with
  | nil => simp
  | cons c cs ih =>
    rw [show (c :: cs) ++ y = c :: (cs ++ y) from rfl, countOccs_cons]
    omega

theorem countOccs_self_append {pat : List Char} (hp : pat ≠ []) (y : List Char) :
    1 ≤ countOccs pat (pat ++ y) := by
  cases pat with
  | nil => exact absurd rfl hp
  | cons a as =>
    rw [show (a :: as) ++ y = a :: (as ++ y) from rfl, countOccs_cons]
    have h := isPrefixOf_append_self (a :: as) y
    rw [show (a :: as) ++ y = a :: (as ++ y) from rfl] at h
    rw [h]
    simp

theorem countOccs_pos {pat : List Char} (hp : pat ≠ []) (x y : List Char) :
    1 ≤ countOccs pat (x ++ (pat ++ y)) :=
  le_trans (countOccs_self_append hp y) (countOccs_le_append pat x (pat ++ y))

theorem jsReplaceAllGo_of_countOccs_zero (pat repl : List Char) :
    ∀ fuel pre s, countOccs pat s = 0 → jsReplaceAllGo pat repl fuel pre s = s := by
  intro fuel
  induction fuel with
  | zero => intro pre s _; cases s <;> rfl
  | succ f ih =>
    intro pre s h
    cases s with
    | nil => rfl
    | cons c cs =>
      rw [countOccs_cons] at h
      have hpre : pat.isPrefixOf (c :: cs) = false := by
        by_contra hx
        rw [if_pos (eq_true_of_ne_false (by simpa using hx))] at h
        omega
      simp only [jsReplaceAllGo]
      rw [if_neg (by simp [hpre])]
      rw [ih (pre ++ [c]) cs (by rw [if_neg (by simp [hpre])] at h; simpa using h)]

theorem replaceAll_of_countOccs_zero {pat : List Char} (repl : List Char)
    {s : List Char} (h : countOccs pat s = 0) :
    jsReplaceAllList pat repl s = s :=
  jsReplaceAllGo_of_countOccs_zero pat repl s.length [] s h

theorem jsReplaceFirstGo_of_countOccs_zero {pat : List Char} (repl : List Char)
    (hp : pat ≠ []) :
    ∀ s pre, countOccs pat s = 0 → jsReplaceFirstGo pat repl pre s = s := by
  intro s
  induction s with
  | nil => intro pre _; simp [jsReplaceFirstGo, List.isEmpty_iff, hp]
  | cons c cs ih =>
    intro pre h
    rw [countOccs_cons] at h
    have hpre : pat.isPrefixOf (c :: cs) = false := by
      by_contra hx
      rw [if_pos (eq_true_of_ne_false (by simpa using hx))] at h
      omega
    simp only [jsReplaceFirstGo, hpre, Bool.false_eq_true, if_false]
    rw [ih (pre ++ [c]) (by rw [if_neg (by simp [hpre])] at h; simpa using h)]

theorem replaceFirst_of_countOccs_zero {pat : List Char} (repl : List Char)
    (hp : pat ≠ []) {s : List Char} (h : countOccs pat s = 0) :
    jsReplaceFirstList pat repl s = s :=
  jsReplaceFirstGo_of_countOccs_zero repl hp s [] h

theorem not_isPrefixOf_head {pat t1 : List Char} (rest : List Char) {c : Char}
    (hpre : pat.isPrefixOf (c :: (t1 ++ pat)) = false) :
    pat.isPrefixOf (c :: (t1 ++ (pat ++ rest))) = false := by
  cases hx : pat.isPrefixOf (c :: (t1 ++ (pat ++ rest))) with
  | false => rfl
  | true =>
    exfalso
    have hx' : pat.isPrefixOf ((c :: (t1 ++ pat)) ++ rest) = true := by
      rw [show (c :: (t1 ++ pat)) ++ rest = c :: (t1 ++ (pat ++ rest)) from by simp]
      exact hx
    have h2 := isPrefixOf_append_of_le hx'
      (by simp [List.length_append]; omega)
    rw [h2] at hpre
    exact absurd hpre (by simp)

theorem countOccs_cons_split {pat t1 : List Char} {c : Char} (hp : pat ≠ [])
    (h1 : countOccs pat (c :: (t1 ++ pat)) = 1) :
    pat.isPrefixOf (c :: (t1 ++ pat)) = false ∧ countOccs pat (t1 ++ pat) = 1 := by
  simp only [countOccs] at h1
  have hge : 1 ≤ countOccs pat (t1 ++ pat) := by
    have := countOccs_pos hp t1 []
    simpa using this
  have hpre : pat.isPrefixOf (c :: (t1 ++ pat)) = false := by
    by_contra hx
    rw [if_pos (eq_true_of_ne_false (by simpa using hx))] at h1
    omega
  rw [if_neg (by simp [hpre])] at h1
  exact ⟨hpre, by omega⟩

theorem replaceAll_step {pat : List Char} (repl : List Char) {t1 : List Char}
    (rest : List Char) (hd : '$' ∉ repl) (hp : pat ≠ [])
    (h1 : countOccs pat (t1 ++ pat) = 1) :
    jsReplaceAllList pat repl (t1 ++ (pat ++ rest)) =
      t1 ++ (repl ++ jsReplaceAllList pat repl rest) := by
  induction t1 with
  | nil =>
    simp only [List.nil_append]
    cases pat with
    | nil => exact absurd rfl hp
    | cons a as =>
      rw [show (a :: as) ++ rest = a :: (as ++ rest) from rfl]
      rw [jsReplaceAllList_cons_pos repl hd hp
        (by rw [show a :: (as ++ rest) = (a :: as) ++ rest from rfl]
            exact isPrefixOf_append_self _ _)]
      congr 1
      congr 1
      rw [show a :: (as ++ rest) = (a :: as) ++ rest from rfl]
      rw [List.drop_left]
  | cons c t1' ih =>
    obtain ⟨hpre, hcount⟩ := countOccs_cons_split hp (by simpa using h1)
    have hpre2 := not_isPrefixOf_head rest hpre
    rw [show (c :: t1') ++ (pat ++ rest) = c :: (t1' ++ (pat ++ rest)) from rfl]
    rw [jsReplaceAllList_cons_neg repl hd (by simp [hpre2])]
    rw [ih hcount]
    rfl

theorem jsReplaceFirstGo_step {pat repl : List Char} (rest : List Char)
    (hd : '$' ∉ repl) (hp : pat ≠ []) :
    ∀ {t1 : List Char}, countOccs pat (t1 ++ pat) = 1 →
    ∀ pre, jsReplaceFirstGo pat repl pre (t1 ++ (pat ++ rest)) =
      t1 ++ (repl ++ rest) := by
  intro t1
  induction t1 with
  | nil =>
    intro _ pre
    simp only [List.nil_append]
    cases pat with
    | nil => exact absurd rfl hp
    | cons a as =>
      rw [show (a :: as) ++ rest = a :: (as ++ rest) from rfl]
      simp only [jsReplaceFirstGo]
      rw [show a :: (as ++ rest) = (a :: as) ++ rest from rfl]
      rw [isPrefixOf_append_self (a :: as) rest]
      simp only [if_true, List.drop_left]
      rw [getSubstitution_no_dollar _ _ _ hd]
  | cons c t1' ih =>
    intro h1 pre
    obtain ⟨hpre, hcount⟩ := countOccs_cons_split hp (by simpa using h1)
    have hpre2 := not_isPrefixOf_head rest hpre
    rw [show (c :: t1') ++ (pat ++ rest) = c :: (t1' ++ (pat ++ rest)) from rfl]
    simp only [jsReplaceFirstGo, hpre2, Bool.false_eq_true, if_false]
    rw [ih hcount (pre ++ [c])]
    rfl

theorem replaceFirst_step {pat : List Char} (repl : List Char) {t1 : List Char}
    (rest : List Char) (hd : '$' ∉ repl) (hp : pat ≠ [])
    (h1 : countOccs pat (t1 ++ pat) = 1) :
    jsReplaceFirstList pat repl (t1 ++ (pat ++ rest)) =
      t1 ++ (repl ++ rest) :=
  jsReplaceFirstGo_step rest hd hp h1 []

theorem renderAll_append_none {s : Section} (pre post : List Section)
    (h : renderSection s = none) : renderAll (pre ++ s :: post) = none := by
  induction pre with
  | nil => simp [renderAll, h]
  | cons p ps ih =>
    rw [show (p :: ps) ++ s :: post = p :: (ps ++ s :: post) from rfl]
    simp only [renderAll, ih]
    cases renderSection p <;> rfl

theorem strAppend_assoc (a b c : String) : a ++ b ++ c = a ++ (b ++ c) :=
  strEq_of_data (by simp [strData_append])

/-- C1: for every non-empty track rendered in Abbreviated (email) mode,
`generateContentSections` outputs exactly the first section's fragment
followed by the fixed read-the-full-newsletter call-to-action fragment;
later sections contribute nothing to the output. -/
theorem abbreviated_mode_first_fragment_then_cta (s : Section) (rest : List Section)
    (f : String) (h : renderSection s = some f) :
    generateContentSections true (s :: rest) = some (f ++ emailCtaFragment) := by
  simp [generateContentSections, renderAll, h, joinSep]

theorem abbreviated_mode_first_fragment_then_cta_witness :
    generateContentSections true [sampleIntro, sampleOutro] =
      some ("<div class=\"content-section\">\n    <h2>TA</h2>\n    <p>CA</p>\n</div>"
        ++ emailCtaFragment) :=
  abbreviated_mode_first_fragment_then_cta sampleIntro [sampleOutro] _ rfl

/-- C4: for every track `[A, B, C]` rendered in Full (web) mode whose
three sections render, the output is exactly the three fragments in
order, separated by one blank line, with no truncation and no appended
call-to-action fragment. -/
theorem full_mode_renders_in_order (A B C : Section) (fa fb fc : String)
    (ha : renderSection A = some fa) (hb : renderSection B = some fb)
    (hc : renderSection C = some fc) :
    generateContentSections false [A, B, C] =
      some (fa ++ "\n\n" ++ fb ++ "\n\n" ++ fc) := by
  simp [generateContentSections, renderAll, ha, hb, hc, joinSep, strAppend_assoc]

theorem full_mode_renders_in_order_witness :
    generateContentSections false [sampleIntro, sampleOutro, sampleThird] =
      some ("<div class=\"content-section\">\n    <h2>TA</h2>\n    <p>CA</p>\n</div>"
        ++ "\n\n"
        ++ "<div class=\"content-section\">\n    <h2>TB</h2>\n    <p>CB</p>\n</div>"
        ++ "\n\n"
        ++ "<div class=\"content-section\">\n    <h2>TX</h2>\n    <p>CX</p>\n</div>") :=
  full_mode_renders_in_order sampleIntro sampleOutro sampleThird _ _ _ rfl rfl rfl

/-- C5 counterexample: the claim says an empty track in Abbreviated
(email) mode gets neither section fragments nor the call-to-action
fragment, but `html += cta` in build.js:78-85 is unconditional: the
output is exactly the call-to-action fragment, which visibly carries
the read-the-full-newsletter link. -/
theorem empty_track_email_appends_cta_cex :
    generateContentSections true ([] : List Section) = some emailCtaFragment ∧
      strContains emailCtaFragment "Read the full version of the newsletter" ∧
      emailCtaFragment ≠ "" := by
  refine ⟨rfl, by decide, by decide⟩

/-- C5 amended: for the empty track in Abbreviated (email) mode,
`generateContentSections` adds no section fragments but still appends
the fixed call-to-action fragment, so the output is exactly that
fragment. -/
theorem empty_track_email_output_is_cta :
    generateContentSections true ([] : List Section) = some emailCtaFragment := rfl

/-- C9: for every section whose type string is not one of the eight
declared types, dispatch succeeds, routes to the generic fallback
renderer, and produces a heading-plus-paragraph fragment.  Moreover no
type value whatsoever can fail dispatch: for every section the
`switch` selects one of the nine renderers (the eight declared ones or
the generic fallback). -/
theorem unknown_type_uses_generic (s : Section) :
    (s.type ∉ declaredTypes →
      renderSection s = generateGenericSection s ∧
      renderSection s = some ("<div class=\"content-section\">\n    <h2>" ++
        jsStr s.title ++ "</h2>\n    <p>" ++ jsStr s.content ++ "</p>\n</div>")) ∧
    (renderSection s = generateMainAnnouncement s ∨
     renderSection s = generateTechnologyStack s ∨
     renderSection s = generateContainerImages s ∨
     renderSection s = generateImplementation s ∨
     renderSection s = generateSupport s ∨
     renderSection s = generateCTA s ∨
     renderSection s = generateMLCapabilities s ∨
     renderSection s = generateAurora s ∨
     renderSection s = generateGenericSection s) := by
  constructor
  · intro h
    have hd : renderSection s = generateGenericSection s := by
      unfold renderSection
      split <;> simp_all [declaredTypes]
    exact ⟨hd, by rw [hd]; rfl⟩
  · unfold renderSection
    split <;> simp

theorem unknown_type_uses_generic_witness :
    (renderSection mysterySec = generateGenericSection mysterySec ∧
      renderSection mysterySec =
        some ("<div class=\"content-section\">\n    <h2>" ++ jsStr (some "TA") ++
          "</h2>\n    <p>" ++ jsStr (some "CA") ++ "</p>\n</div>")) ∧
    (renderSection mysterySec = generateMainAnnouncement mysterySec ∨
     renderSection mysterySec = generateTechnologyStack mysterySec ∨
     renderSection mysterySec = generateContainerImages mysterySec ∨
     renderSection mysterySec = generateImplementation mysterySec ∨
     renderSection mysterySec = generateSupport mysterySec ∨
     renderSection mysterySec = generateCTA mysterySec ∨
     renderSection mysterySec = generateMLCapabilities mysterySec ∨
     renderSection mysterySec = generateAurora mysterySec ∨
     renderSection mysterySec = generateGenericSection mysterySec) :=
  ⟨(unknown_type_uses_generic mysterySec).1 (by decide),
   (unknown_type_uses_generic mysterySec).2⟩

/-- Helper for C7: the aurora renderer throws whenever any of its four
unconditionally dereferenced fields is absent. -/
theorem generateAurora_none {s : Section}
    (h : s.content = none ∨ s.involvement = none ∨ s.community = none ∨
      s.feedback = none) : generateAurora s = none := by
  unfold generateAurora
  rcases h with h | h | h | h <;> rw [h] <;>
    cases s.content <;> cases s.involvement <;> cases s.community <;>
      cases s.feedback <;> rfl

/-- C7 counterexample: a `cta` section lacking its required `title`
field does not fail — JS interpolates the absent field as the literal
text "undefined" and the renderer happily emits the malformed fragment,
contradicting the claim that a payload lacking a required field aborts
that section's render. -/
theorem missing_title_renders_undefined_cex :
    renderSection { type := "cta", content := some "C", buttons := some [] } =
      some "<div class=\"cta-section\">\n    <h3>undefined</h3>\n    <p>C</p>\n    \n</div>" ∧
    strContains "<div class=\"cta-section\">\n    <h3>undefined</h3>\n    <p>C</p>\n    \n</div>"
      "undefined" := by
  constructor
  · rfl
  · decide

/-- C7 amended: only a missing list- or object-valued required field
(one the renderer calls `.map`/`.forEach` on or dereferences) makes the
section's render fail with an error and no fragment; such a failure
aborts the whole track render (the JS exception propagates out of
`Array.prototype.map`), so no malformed output is emitted, and it does
not alter what any other section's renderer would produce.  Missing
scalar text fields render as the literal text "undefined" instead. -/
theorem missing_structured_field_fails (s : Section) :
    ((s.type = "cta" ∧ s.buttons = none) ∨
     (s.type = "technology_stack" ∧ s.subsections = none) ∨
     (s.type = "container_images" ∧ s.code_block = none) ∨
     (s.type = "implementation" ∧ s.phases = none) ∨
     (s.type = "support" ∧ s.list_items = none) ∨
     (s.type = "aurora" ∧ (s.content = none ∨ s.involvement = none ∨
       s.community = none ∨ s.feedback = none)) →
      renderSection s = none) ∧
    (∀ pre post, renderSection s = none →
      generateContentSections false (pre ++ s :: post) = none) := by
  constructor
  · rintro (⟨ht, hf⟩ | ⟨ht, hf⟩ | ⟨ht, hf⟩ | ⟨ht, hf⟩ | ⟨ht, hf⟩ | ⟨ht, hf⟩)
    · simp [renderSection, ht, generateCTA, hf]
    · simp [renderSection, ht, generateTechnologyStack, hf]
    · simp [renderSection, ht, generateContainerImages, hf]
    · simp [renderSection, ht, generateImplementation, hf]
    · simp [renderSection, ht, generateSupport, hf]
    · have := generateAurora_none hf
      simp [renderSection, ht, this]
  · intro pre post h
    have hall := renderAll_append_none pre post h
    simp [generateContentSections, hall]

theorem missing_structured_field_fails_witness :
    renderSection { type := "cta", title := some "T", content := some "C" } = none :=
  (missing_structured_field_fails _).1 (Or.inl ⟨rfl, rfl⟩)

/-- C6: a document with an absent French track never fails on that
account: provided the English side renders (or is itself absent),
assembly succeeds and the French track token is substituted with the
fixed French-content-coming-soon fallback fragment. -/
theorem french_absent_uses_fallback (isEmail : Bool) (t : String)
    (d : ContentDocument) (hf : d.french = none)
    (he : d.english = none ∨ ∃ secs ec, d.english = some secs ∧
      generateContentSections isEmail secs = some ec) :
    ∃ r2, replacePlaceholders isEmail t d =
      some (jsReplaceFirst r2 (tok "FRENCH_CONTENT") frenchFallback) := by
  rcases he with hn | ⟨secs, ec, h1, h2⟩
  · exact ⟨scalarPass t d, by simp [replacePlaceholders, hn, hf]⟩
  · exact ⟨jsReplaceFirst (scalarPass t d) (tok "ENGLISH_CONTENT") ec,
      by simp [replacePlaceholders, h1, h2, hf]⟩

theorem french_absent_uses_fallback_witness :
    ∃ r2, replacePlaceholders false (tok "FRENCH_CONTENT") sampleDoc =
      some (jsReplaceFirst r2 (tok "FRENCH_CONTENT") frenchFallback) :=
  french_absent_uses_fallback false (tok "FRENCH_CONTENT") sampleDoc rfl (Or.inl rfl)

theorem bne_eq_true_iff (a b : Char) : ((a != b) = true) ↔ a ≠ b := by
  simp [bne]

theorem data_ne_nil {s : String} (h : s ≠ "") : s.data ≠ [] :=
  fun hd => h (strEq_of_data (by rw [hd]))

theorem takeWhile_append_stop (p : Char → Bool) {l : List Char}
    (hl : ∀ c ∈ l, p c = true) {x : Char} (hx : p x = false) (r : List Char) :
    (l ++ x :: r).takeWhile p = l := by
  induction l with
  | nil => simp [List.takeWhile_cons, hx]
  | cons c cs ih =>
    have hc : p c = true := hl c (by simp)
    rw [show (c :: cs) ++ x :: r = c :: (cs ++ x :: r) from rfl]
    rw [List.takeWhile_cons, if_pos hc]
    rw [ih (fun d hd => hl d (by simp [hd]))]

theorem dropWhile_append_stop (p : Char → Bool) {l : List Char}
    (hl : ∀ c ∈ l, p c = true) {x : Char} (hx : p x = false) (r : List Char) :
    (l ++ x :: r).dropWhile p = x :: r := by
  induction l with
  | nil =>
    simp only [List.nil_append]
    exact List.dropWhile_cons_of_neg (by simp [hx])
  | cons c cs ih =>
    have hc : p c = true := hl c (by simp)
    rw [show (c :: cs) ++ x :: r = c :: (cs ++ x :: r) from rfl]
    rw [List.dropWhile_cons_of_pos hc]
    rw [ih (fun d hd => hl d (by simp [hd]))]

theorem matchAt_not_lb {c : Char} {cs : List Char} (h : c ≠ '[') :
    matchAt (c :: cs) = none := by
  simp [matchAt, h]

theorem matchAt_construct {l u r : List Char} (hl : l ≠ [])
    (hlc : ∀ c ∈ l, (c != ']') = true) (hu : u ≠ [])
    (huc : ∀ c ∈ u, (c != ')') = true) :
    matchAt ('[' :: (l ++ ']' :: '(' :: (u ++ ')' :: r))) = some (l, u, r) := by
  have hd1 : (l ++ ']' :: '(' :: (u ++ ')' :: r)).dropWhile (fun x => x != ']') =
      ']' :: '(' :: (u ++ ')' :: r) :=
    dropWhile_append_stop _ hlc (by simp) _
  have ht1 : (l ++ ']' :: '(' :: (u ++ ')' :: r)).takeWhile (fun x => x != ']') = l :=
    takeWhile_append_stop _ hlc (by simp) _
  have hd2 : (u ++ ')' :: r).dropWhile (fun x => x != ')') = ')' :: r :=
    dropWhile_append_stop _ huc (by simp) _
  have ht2 : (u ++ ')' :: r).takeWhile (fun x => x != ')') = u :=
    takeWhile_append_stop _ huc (by simp) _
  simp only [matchAt, if_pos rfl]
  rw [hd1]
  dsimp only
  rw [if_pos rfl, ht1, if_neg hl, hd2]
  dsimp only
  rw [ht2, if_neg hu]
  simp

theorem findLink_cons_match {c : Char} {cs l u rest : List Char}
    (h : matchAt (c :: cs) = some (l, u, rest)) :
    findLink (c :: cs) = some ([], l, u, rest) := by
  simp [findLink, h]

theorem findLink_cons_none {c : Char} {cs : List Char}
    (h : matchAt (c :: cs) = none) (h2 : findLink cs = none) :
    findLink (c :: cs) = none := by
  simp [findLink, h, h2]

theorem findLink_cons_some {c : Char} {cs p l u rest : List Char}
    (h : matchAt (c :: cs) = none) (h2 : findLink cs = some (p, l, u, rest)) :
    findLink (c :: cs) = some (c :: p, l, u, rest) := by
  simp [findLink, h, h2]

theorem findLink_no_lb {s : List Char} (h : '[' ∉ s) : findLink s = none := by
  induction s with
  | nil => rfl
  | cons c cs ih =>
    have hc : c ≠ '[' := fun he => h (he ▸ List.mem_cons_self c cs)
    exact findLink_cons_none (matchAt_not_lb hc)
      (ih (fun hm => h (List.mem_cons_of_mem c hm)))

theorem findLink_append_front : ∀ (t : List Char), '[' ∉ t →
    ∀ {z l u r : List Char}, matchAt z = some (l, u, r) →
    findLink (t ++ z) = some (t, l, u, r) := by
  intro t
  induction t with
  | nil =>
    intro _ z l u r hm
    have hz := matchAt_eq_some hm
    rw [List.nil_append, hz]
    rw [hz] at hm
    exact findLink_cons_match hm
  | cons c t' ih =>
    intro ht z l u r hm
    have hc : c ≠ '[' := fun he => ht (he ▸ List.mem_cons_self c t')
    have ht' : '[' ∉ t' := fun hm2 => ht (List.mem_cons_of_mem c hm2)
    rw [show (c :: t') ++ z = c :: (t' ++ z) from rfl]
    exact findLink_cons_some (matchAt_not_lb hc) (ih ht' hm)

/-- C3: on any text consisting of N `[label](url)` occurrences
interleaved with link-free text (labels non-empty without `]`, urls
non-empty without `)`, interleaved text without `[`), the Link
Formatter yields exactly the N corresponding anchor tags with the
interleaved text unchanged; with N = 0 it is the identity. -/
theorem link_formatter_exact : ∀ (ps : List (String × String × String)) (tail : String),
    (∀ x ∈ ps, ('[' ∉ x.1.data) ∧ x.2.1 ≠ "" ∧ (']' ∉ x.2.1.data) ∧
      x.2.2 ≠ "" ∧ (')' ∉ x.2.2.data)) →
    '[' ∉ tail.data →
    processMarkdownLinks (mkLinkInput ps tail) = mkLinkOutput ps tail := by
  intro ps
  induction ps with
  | nil =>
    intro tail _ htail
    show String.mk (processAux tail.data) = tail
    rw [processAux_none (findLink_no_lb htail)]
  | cons head ps ih =>
    obtain ⟨t, l, u⟩ := head
    intro tail hps htail
    obtain ⟨ht, hl, hlc, hu, huc⟩ := hps (t, l, u) (by simp)
    have hps' : ∀ x ∈ ps, ('[' ∉ x.1.data) ∧ x.2.1 ≠ "" ∧ (']' ∉ x.2.1.data) ∧
        x.2.2 ≠ "" ∧ (')' ∉ x.2.2.data) := fun x hx => hps x (by simp [hx])
    have D : (mkLinkInput ((t, l, u) :: ps) tail).data =
        t.data ++ ('[' :: (l.data ++ ']' :: '(' ::
          (u.data ++ ')' :: (mkLinkInput ps tail).data))) := by
      simp [mkLinkInput, strData_append,
        show "[".data = ['['] from rfl,
        show "](".data = [']', '('] from rfl,
        show ")".data = [')'] from rfl]
    have hm : matchAt ('[' :: (l.data ++ ']' :: '(' ::
        (u.data ++ ')' :: (mkLinkInput ps tail).data))) =
        some (l.data, u.data, (mkLinkInput ps tail).data) :=
      matchAt_construct (data_ne_nil hl)
        (fun c hc => (bne_eq_true_iff c ']').mpr (fun he => hlc (he ▸ hc)))
        (data_ne_nil hu)
        (fun c hc => (bne_eq_true_iff c ')').mpr (fun he => huc (he ▸ hc)))
    have hfind : findLink ((mkLinkInput ((t, l, u) :: ps) tail).data) =
        some (t.data, l.data, u.data, (mkLinkInput ps tail).data) := by
      rw [D]; exact findLink_append_front t.data ht hm
    have ihd : processAux ((mkLinkInput ps tail).data) =
        (mkLinkOutput ps tail).data := by
      have := congrArg String.data (ih tail hps' htail)
      simpa [processMarkdownLinks] using this
    apply strEq_of_data
    show (processAux ((mkLinkInput ((t, l, u) :: ps) tail).data)) = _
    rw [processAux_some hfind, ihd]
    simp [mkLinkOutput, strData_append, anchorFrag, List.append_assoc]

theorem link_formatter_exact_witness :
    processMarkdownLinks (mkLinkInput [("see ", "GC", "https://x"), (" and ", "b", "c")] ".") =
      mkLinkOutput [("see ", "GC", "https://x"), (" and ", "b", "c")] "." :=
  link_formatter_exact _ _ (by decide) (by decide)

theorem strContains_foldl_subsection (subs : List Subsection) {init n : String}
    (h : strContains init n) :
    strContains (subs.foldl (fun acc sub => acc ++
      "\n\n    <h3>" ++ sub.title ++ "</h3>\n    <p>" ++ sub.content ++
      "</p>\n\n    <div class=\"feature-grid\">\n        " ++
      joinSep "\n        " (sub.feature_cards.map (fun card =>
        "<div class=\"feature-card\">\n            <h4>" ++ card.title ++
        "</h4>\n            <p>" ++ card.content ++ "</p>\n        </div>")) ++
      "\n    </div>") init) n := by
  apply strContains_foldl
  · intro acc x m hm
    repeat apply strContains_append_right
    exact hm
  · exact h

theorem strContains_foldl_phase (ps : List Phase) {init n : String}
    (h : strContains init n) :
    strContains (ps.foldl (fun acc phase => acc ++
      "\n\n    <h4>" ++ phase.title ++ "</h4>\n    <p>" ++ phase.content ++ "</p>")
      init) n := by
  apply strContains_foldl
  · intro acc x m hm
    repeat apply strContains_append_right
    exact hm
  · exact h

theorem strContains_foldl_para (cs : List String) {init n : String}
    (h : strContains init n) :
    strContains (cs.foldl (fun acc content => acc ++ "\n    <p>" ++ content ++ "</p>")
      init) n := by
  apply strContains_foldl
  · intro acc x m hm
    repeat apply strContains_append_right
    exact hm
  · exact h

theorem generateMainAnnouncement_mono (s : Section) (n frag : String)
    (hf : generateMainAnnouncement s = some frag)
    (h : strContains ("<div class=\"content-section\">\n    <h2>" ++ jsStr s.title ++
      "</h2>\n    <p>" ++ jsStr s.content ++ "</p>") n) :
    strContains frag n := by
  simp only [generateMainAnnouncement, Option.some.injEq] at hf
  subst hf
  apply strContains_append_right
  cases s.stats <;> cases s.highlight_box <;> dsimp only
  · exact h
  · iterate 5 apply strContains_append_right
    exact h
  · iterate 5 apply strContains_append_right
    exact h
  · iterate 10 apply strContains_append_right
    exact h

theorem generateSupport_mono (s : Section) (items : List String)
    (hi : s.list_items = some items) (n frag : String)
    (hf : generateSupport s = some frag)
    (h : strContains ("<div class=\"content-section\">\n    <h2>" ++ jsStr s.title ++
      "</h2>\n    <p>" ++ jsStr s.content ++ "</p>\n\n    <ul>\n        " ++
      joinSep "\n        " (items.map (fun item => "<li>" ++ item ++ "</li>")) ++
      "\n    </ul>") n) :
    strContains frag n := by
  simp only [generateSupport, hi, Option.some.injEq] at hf
  subst hf
  apply strContains_append_right
  cases s.contact <;> dsimp only
  · exact h
  · iterate 7 apply strContains_append_right
    exact h

theorem generateMLCapabilities_mono (s : Section) (n frag : String)
    (hf : generateMLCapabilities s = some frag)
    (h : strContains ("<div class=\"content-section\">\n    <h2>" ++ jsStr s.title ++
      "</h2>\n    <p>" ++ jsStr s.content ++ "</p>") n) :
    strContains frag n := by
  simp only [generateMLCapabilities, Option.some.injEq] at hf
  subst hf
  apply strContains_append_right
  cases s.resources <;> cases s.additional_content <;> cases s.features <;>
    cases s.recording_links <;> dsimp only
  · exact h
  · iterate 3 apply strContains_append_right
    exact h
  · iterate 5 apply strContains_append_right
    exact h
  · iterate 8 apply strContains_append_right
    exact h
  · apply strContains_foldl_para
    exact h
  · apply strContains_foldl_para
    iterate 3 apply strContains_append_right
    exact h
  · apply strContains_foldl_para
    iterate 5 apply strContains_append_right
    exact h
  · apply strContains_foldl_para
    iterate 8 apply strContains_append_right
    exact h
  · iterate 7 apply strContains_append_right
    exact h
  · iterate 10 apply strContains_append_right
    exact h
  · iterate 12 apply strContains_append_right
    exact h
  · iterate 15 apply strContains_append_right
    exact h
  · iterate 7 apply strContains_append_right
    apply strContains_foldl_para
    exact h
  · iterate 7 apply strContains_append_right
    apply strContains_foldl_para
    iterate 3 apply strContains_append_right
    exact h
  · iterate 7 apply strContains_append_right
    apply strContains_foldl_para
    iterate 5 apply strContains_append_right
    exact h
  · iterate 7 apply strContains_append_right
    apply strContains_foldl_para
    iterate 8 apply strContains_append_right
    exact h

theorem technology_stack_omits_content_cex :
    techNoContent.content = some "CONTENT-MARKER" ∧
    renderSection techNoContent =
      some "<div class=\"content-section\">\n    <h2>T</h2>\n</div>" ∧
    ¬ strContains "<div class=\"content-section\">\n    <h2>T</h2>\n</div>"
        "CONTENT-MARKER" := by
  refine ⟨rfl, rfl, ?_⟩
  decide

/-- C2 amended: for every section of a declared type holding `title`
and `content` whose render succeeds, the fragment contains the title
verbatim; it also contains the content verbatim for every declared
type except `technology_stack` (whose renderer drops `content`) and
`aurora` (whose content passes through the Link Formatter and is
therefore verbatim exactly when it is a fixed point of it, e.g. free
of markdown-link syntax). -/
theorem dispatcher_contains_title_content (s : Section) (tt ct frag : String)
    (ht : s.title = some tt) (hc : s.content = some ct)
    (hf : renderSection s = some frag) :
    (s.type ∈ declaredTypes → strContains frag tt) ∧
    (s.type ∈ declaredTypes → s.type ≠ "technology_stack" → s.type ≠ "aurora" →
      strContains frag ct) ∧
    (s.type = "aurora" → processMarkdownLinks ct = ct → strContains frag ct) := by
  refine ⟨fun hmem => ?_, fun hmem hn1 hn2 => ?_, fun haur hfix => ?_⟩
  · simp only [declaredTypes, List.mem_cons, List.mem_singleton,
      List.not_mem_nil, or_false] at hmem
    rcases hmem with h | h | h | h | h | h | h | h
    · simp [renderSection, h] at hf
      refine generateMainAnnouncement_mono s tt frag hf ?_
      rw [ht]
      simp only [jsStr, Option.getD_some]
      repeat first
        | exact strContains_append_left _ (strContains_self _)
        | apply strContains_append_right
    · simp [renderSection, h] at hf
      cases hsub : s.subsections with
      | none => simp [generateTechnologyStack, hsub] at hf
      | some subs =>
        simp only [generateTechnologyStack, hsub, Option.some.injEq] at hf
        subst hf
        apply strContains_append_right
        apply strContains_foldl_subsection
        rw [ht]
        simp only [jsStr, Option.getD_some]
        repeat first
          | exact strContains_append_left _ (strContains_self _)
          | apply strContains_append_right
    · simp [renderSection, h] at hf
      cases hcb : s.code_block with
      | none => simp [generateContainerImages, hcb] at hf
      | some cb =>
        simp only [generateContainerImages, hcb, Option.some.injEq] at hf
        subst hf
        rw [ht]
        simp only [jsStr, Option.getD_some]
        repeat first
          | exact strContains_append_left _ (strContains_self _)
          | apply strContains_append_right
    · simp [renderSection, h] at hf
      cases hph : s.phases with
      | none => simp [generateImplementation, hph] at hf
      | some ps =>
        simp only [generateImplementation, hph, Option.some.injEq] at hf
        subst hf
        apply strContains_append_right
        apply strContains_foldl_phase
        rw [ht]
        simp only [jsStr, Option.getD_some]
        repeat first
          | exact strContains_append_left _ (strContains_self _)
          | apply strContains_append_right
    · simp [renderSection, h] at hf
      cases hli : s.list_items with
      | none => simp [generateSupport, hli] at hf
      | some items =>
        refine generateSupport_mono s items hli tt frag hf ?_
        rw [ht]
        simp only [jsStr, Option.getD_some]
        repeat first
          | exact strContains_append_left _ (strContains_self _)
          | apply strContains_append_right
    · simp [renderSection, h] at hf
      cases hb : s.buttons with
      | none => simp [generateCTA, hb] at hf
      | some btns =>
        simp only [generateCTA, hb, Option.some.injEq] at hf
        subst hf
        rw [ht]
        simp only [jsStr, Option.getD_some]
        repeat first
          | exact strContains_append_left _ (strContains_self _)
          | apply strContains_append_right
    · simp [renderSection, h] at hf
      refine generateMLCapabilities_mono s tt frag hf ?_
      rw [ht]
      simp only [jsStr, Option.getD_some]
      repeat first
        | exact strContains_append_left _ (strContains_self _)
        | apply strContains_append_right
    · simp [renderSection, h] at hf
      cases hin : s.involvement <;> cases hcm : s.community <;> cases hfb : s.feedback <;>
        first
          | (exfalso; simp [generateAurora, hc, hin, hcm, hfb] at hf; done)
          | (simp only [generateAurora, hc, hin, hcm, hfb, Option.some.injEq] at hf
             subst hf
             rw [ht]
             simp only [jsStr, Option.getD_some]
             repeat first
               | exact strContains_append_left _ (strContains_self _)
               | apply strContains_append_right)
  · simp only [declaredTypes, List.mem_cons, List.mem_singleton,
      List.not_mem_nil, or_false] at hmem
    rcases hmem with h | h | h | h | h | h | h | h
    · simp [renderSection, h] at hf
      refine generateMainAnnouncement_mono s ct frag hf ?_
      rw [hc]
      simp only [jsStr, Option.getD_some]
      repeat first
        | exact strContains_append_left _ (strContains_self _)
        | apply strContains_append_right
    · exact absurd h hn1
    · simp [renderSection, h] at hf
      cases hcb : s.code_block with
      | none => simp [generateContainerImages, hcb] at hf
      | some cb =>
        simp only [generateContainerImages, hcb, Option.some.injEq] at hf
        subst hf
        rw [hc]
        simp only [jsStr, Option.getD_some]
        repeat first
          | exact strContains_append_left _ (strContains_self _)
          | apply strContains_append_right
    · simp [renderSection, h] at hf
      cases hph : s.phases with
      | none => simp [generateImplementation, hph] at hf
      | some ps =>
        simp only [generateImplementation, hph, Option.some.injEq] at hf
        subst hf
        apply strContains_append_right
        apply strContains_foldl_phase
        rw [hc]
        simp only [jsStr, Option.getD_some]
        repeat first
          | exact strContains_append_left _ (strContains_self _)
          | apply strContains_append_right
    · simp [renderSection, h] at hf
      cases hli : s.list_items with
      | none => simp [generateSupport, hli] at hf
      | some items =>
        refine generateSupport_mono s items hli ct frag hf ?_
        rw [hc]
        simp only [jsStr, Option.getD_some]
        repeat first
          | exact strContains_append_left _ (strContains_self _)
          | apply strContains_append_right
    · simp [renderSection, h] at hf
      cases hb : s.buttons with
      | none => simp [generateCTA, hb] at hf
      | some btns =>
        simp only [generateCTA, hb, Option.some.injEq] at hf
        subst hf
        rw [hc]
        simp only [jsStr, Option.getD_some]
        repeat first
          | exact strContains_append_left _ (strContains_self _)
          | apply strContains_append_right
    · simp [renderSection, h] at hf
      refine generateMLCapabilities_mono s ct frag hf ?_
      rw [hc]
      simp only [jsStr, Option.getD_some]
      repeat first
        | exact strContains_append_left _ (strContains_self _)
        | apply strContains_append_right
    · exact absurd h hn2
  · simp [renderSection, haur] at hf
    cases hin : s.involvement <;> cases hcm : s.community <;> cases hfb : s.feedback <;>
      first
        | (exfalso; simp [generateAurora, hc, hin, hcm, hfb] at hf; done)
        | (simp only [generateAurora, hc, hin, hcm, hfb, Option.some.injEq] at hf
           subst hf
           rw [hfix]
           repeat first
             | exact strContains_append_left _ (strContains_self _)
             | apply strContains_append_right)

theorem dispatcher_contains_title_content_witness :
    (("cta" : String) ∈ declaredTypes →
      strContains "<div class=\"cta-section\">\n    <h3>TC</h3>\n    <p>CC</p>\n    \n</div>" "TC") ∧
    (("cta" : String) ∈ declaredTypes → ("cta" : String) ≠ "technology_stack" →
      ("cta" : String) ≠ "aurora" →
      strContains "<div class=\"cta-section\">\n    <h3>TC</h3>\n    <p>CC</p>\n    \n</div>" "CC") ∧
    (("cta" : String) = "aurora" → processMarkdownLinks "CC" = "CC" →
      strContains "<div class=\"cta-section\">\n    <h3>TC</h3>\n    <p>CC</p>\n    \n</div>" "CC") :=
  dispatcher_contains_title_content
    { type := "cta", title := some "TC", content := some "CC", buttons := some [] }
    "TC" "CC" _ rfl rfl rfl

theorem jsReplaceAll_id {pat s : String} (repl : String)
    (h : countOccsS pat s = 0) : jsReplaceAll s pat repl = s := by
  apply strEq_of_data
  exact replaceAll_of_countOccs_zero _ h

theorem jsReplaceFirst_id {pat s : String} (repl : String) (hp : pat ≠ "")
    (h : countOccsS pat s = 0) : jsReplaceFirst s pat repl = s := by
  apply strEq_of_data
  exact replaceFirst_of_countOccs_zero _ (data_ne_nil hp) h

theorem jsReplaceAll_once {t1 pat : String} (t2 repl : String)
    (hd : '$' ∉ repl.data) (hp : pat ≠ "")
    (h1 : countOccsS pat (t1 ++ pat) = 1) (h2 : countOccsS pat t2 = 0) :
    jsReplaceAll (t1 ++ (pat ++ t2)) pat repl = t1 ++ (repl ++ t2) := by
  have h1' : countOccs pat.data (t1.data ++ pat.data) = 1 := by
    rw [← strData_append]; exact h1
  apply strEq_of_data
  show jsReplaceAllList pat.data repl.data (t1 ++ (pat ++ t2)).data = _
  rw [strData_append, strData_append]
  rw [replaceAll_step repl.data t2.data hd (data_ne_nil hp) h1']
  rw [replaceAll_of_countOccs_zero repl.data h2]
  rw [strData_append, strData_append]

theorem jsReplaceAll_twice {t1 t2 pat : String} (t3 repl : String)
    (hd : '$' ∉ repl.data) (hp : pat ≠ "")
    (h1 : countOccsS pat (t1 ++ pat) = 1) (h2 : countOccsS pat (t2 ++ pat) = 1)
    (h3 : countOccsS pat t3 = 0) :
    jsReplaceAll (t1 ++ (pat ++ (t2 ++ (pat ++ t3)))) pat repl =
      t1 ++ (repl ++ (t2 ++ (repl ++ t3))) := by
  have h1' : countOccs pat.data (t1.data ++ pat.data) = 1 := by
    rw [← strData_append]; exact h1
  have h2' : countOccs pat.data (t2.data ++ pat.data) = 1 := by
    rw [← strData_append]; exact h2
  apply strEq_of_data
  show jsReplaceAllList pat.data repl.data
      (t1 ++ (pat ++ (t2 ++ (pat ++ t3)))).data = _
  rw [strData_append, strData_append, strData_append, strData_append]
  rw [replaceAll_step repl.data (t2.data ++ (pat.data ++ t3.data))
    hd (data_ne_nil hp) h1']
  rw [replaceAll_step repl.data t3.data hd (data_ne_nil hp) h2']
  rw [replaceAll_of_countOccs_zero repl.data h3]
  simp [strData_append]

theorem jsReplaceFirst_once {t1 pat : String} (rest repl : String)
    (hd : '$' ∉ repl.data) (hp : pat ≠ "")
    (h1 : countOccsS pat (t1 ++ pat) = 1) :
    jsReplaceFirst (t1 ++ (pat ++ rest)) pat repl = t1 ++ (repl ++ rest) := by
  have h1' : countOccs pat.data (t1.data ++ pat.data) = 1 := by
    rw [← strData_append]; exact h1
  apply strEq_of_data
  show jsReplaceFirstList pat.data repl.data (t1 ++ (pat ++ rest)).data = _
  rw [strData_append, strData_append]
  rw [replaceFirst_step repl.data rest.data hd (data_ne_nil hp) h1']
  rw [strData_append, strData_append]

/-- C8 counterexample: JS `String.replace` expands `$`-escapes in the
replacement string (`GetSubstitution`), so with `meta.title = "$&"`
(reinsert the matched text) the program leaves the template unchanged:
the output still carries a literal `\x7b\x7bTITLE\x7d\x7d` token and does
not contain the title value, refuting the claimed literal one-to-one
substitution with no remaining token. -/
theorem scalar_dollar_escape_cex :
    replacePlaceholders false ("a" ++ (tok "TITLE" ++ "b")) dollarDoc =
      some ("a" ++ (tok "TITLE" ++ "b")) ∧
    dollarDoc.meta.title = "$&" ∧
    countOccsS (tok "TITLE") ("a" ++ (tok "TITLE" ++ "b")) = 1 ∧
    ¬ strContains ("a" ++ (tok "TITLE" ++ "b")) "$&" := by
  refine ⟨by decide, rfl, by decide, by decide⟩

/-- C8 amended: every scalar placeholder is substituted at every
occurrence, and the substitution is literal provided the substituted
value contains no dollar sign (otherwise JS expands the `$`-escape
patterns of `GetSubstitution`).  With `\x7b\x7bTITLE\x7d\x7d` occurring
exactly once in the template (split as `t1 ++ token ++ t2`), a
dollar-free `meta.title`, and the substituted document values
introducing no further placeholder tokens, assembly yields exactly the
template with the token replaced by `meta.title`: the title value
appears at that position and no literal `\x7b\x7bTITLE\x7d\x7d` token
remains. -/
theorem scalar_placeholder_substitution (isEmail : Bool) (d : ContentDocument)
    (t1 t2 : String) (hd : '$' ∉ d.meta.title.data)
    (h1 : countOccsS (tok "TITLE") (t1 ++ tok "TITLE") = 1)
    (h2 : countOccsS (tok "TITLE") t2 = 0)
    (h3 : ∀ q ∈ [tok "TITLE", tok "SUBTITLE", tok "TAGLINE", tok "HERO_TITLE",
      tok "HERO_DESCRIPTION", tok "FRENCH_CONTENT"],
      countOccsS q (t1 ++ (d.meta.title ++ t2)) = 0)
    (he : d.english = none) (hf : d.french = none) :
    replacePlaceholders isEmail (t1 ++ (tok "TITLE" ++ t2)) d =
      some (t1 ++ (d.meta.title ++ t2)) ∧
    strContains (t1 ++ (d.meta.title ++ t2)) d.meta.title ∧
    countOccsS (tok "TITLE") (t1 ++ (d.meta.title ++ t2)) = 0 := by
  have e1 : jsReplaceAll (t1 ++ (tok "TITLE" ++ t2)) (tok "TITLE") d.meta.title =
      t1 ++ (d.meta.title ++ t2) :=
    jsReplaceAll_once t2 d.meta.title hd (by decide) h1 h2
  have hsp : scalarPass (t1 ++ (tok "TITLE" ++ t2)) d = t1 ++ (d.meta.title ++ t2) := by
    unfold scalarPass
    rw [e1]
    rw [jsReplaceAll_id d.header.sub_title (h3 _ (by simp))]
    rw [jsReplaceAll_id d.header.subtitle (h3 _ (by simp))]
    rw [jsReplaceAll_id d.hero.title (h3 _ (by simp))]
    rw [jsReplaceAll_id d.hero.description (h3 _ (by simp))]
  have e6 : jsReplaceFirst (t1 ++ (d.meta.title ++ t2)) (tok "FRENCH_CONTENT")
      frenchFallback = t1 ++ (d.meta.title ++ t2) :=
    jsReplaceFirst_id frenchFallback (by decide) (h3 _ (by simp))
  refine ⟨?_, (strContains_iff _ _).mpr
    ⟨t1.data, t2.data, by simp [strData_append]⟩, h3 _ (by simp)⟩
  simp only [replacePlaceholders, he, hf]
  rw [hsp, e6]

theorem scalar_placeholder_substitution_witness :
    replacePlaceholders false ("<h1>" ++ (tok "TITLE" ++ "</h1>")) sampleDoc =
      some ("<h1>" ++ (sampleDoc.meta.title ++ "</h1>")) ∧
    strContains ("<h1>" ++ (sampleDoc.meta.title ++ "</h1>")) sampleDoc.meta.title ∧
    countOccsS (tok "TITLE") ("<h1>" ++ (sampleDoc.meta.title ++ "</h1>")) = 0 :=
  scalar_placeholder_substitution false sampleDoc "<h1>" "</h1>"
    (by decide) (by decide) (by decide) (by decide) rfl rfl

/-- C10 counterexample: the claimed every-occurrence scalar contrast is
not a literal substitution: with `meta.title = "$&"` the program maps a
template with two `\x7b\x7bTITLE\x7d\x7d` occurrences to itself (each match
reinserts the matched token text), not to the title value at both
positions. -/
theorem track_scalar_dollar_cex :
    replacePlaceholders false
      ("a" ++ (tok "TITLE" ++ ("b" ++ (tok "TITLE" ++ "c")))) dollarDoc =
      some ("a" ++ (tok "TITLE" ++ ("b" ++ (tok "TITLE" ++ "c")))) ∧
    ("a" ++ (tok "TITLE" ++ ("b" ++ (tok "TITLE" ++ "c")))) ≠
      ("a" ++ ("$&" ++ ("b" ++ ("$&" ++ "c")))) ∧
    dollarDoc.meta.title = "$&" := by
  refine ⟨by decide, by decide, rfl⟩

/-- C10 amended: the two track placeholders use JS plain-string
`replace`, which substitutes only at the first occurrence and leaves
later occurrences verbatim — unlike the scalar placeholders, whose
`g`-flagged regex substitutes at every occurrence (literally so when
the value is dollar-free; otherwise `$`-escapes are expanded).
Clause one: a dollar-free `meta.title` replaces both of two
`\x7b\x7bTITLE\x7d\x7d` occurrences.  Clause two: with the English track
present and rendering to a dollar-free fragment, of two
`\x7b\x7bENGLISH_CONTENT\x7d\x7d` occurrences only the first receives the
rendered track content, the second remains a literal token.  Clause
three: with the French track absent, of two
`\x7b\x7bFRENCH_CONTENT\x7d\x7d` occurrences only the first receives the
fallback fragment, the second remains a literal token. -/
theorem track_token_first_occurrence_only :
    (∀ (isEmail : Bool) (d : ContentDocument) (u1 u2 u3 : String),
      '$' ∉ d.meta.title.data →
      countOccsS (tok "TITLE") (u1 ++ tok "TITLE") = 1 →
      countOccsS (tok "TITLE") (u2 ++ tok "TITLE") = 1 →
      countOccsS (tok "TITLE") u3 = 0 →
      (∀ q ∈ [tok "SUBTITLE", tok "TAGLINE", tok "HERO_TITLE",
        tok "HERO_DESCRIPTION", tok "FRENCH_CONTENT"],
        countOccsS q (u1 ++ (d.meta.title ++ (u2 ++ (d.meta.title ++ u3)))) = 0) →
      d.english = none → d.french = none →
      replacePlaceholders isEmail
        (u1 ++ (tok "TITLE" ++ (u2 ++ (tok "TITLE" ++ u3)))) d =
        some (u1 ++ (d.meta.title ++ (u2 ++ (d.meta.title ++ u3))))) ∧
    (∀ (isEmail : Bool) (d : ContentDocument) (u1 u2 u3 : String)
      (secs : List Section) (ec : String),
      d.english = some secs →
      generateContentSections isEmail secs = some ec →
      '$' ∉ ec.data →
      (∀ q ∈ [tok "TITLE", tok "SUBTITLE", tok "TAGLINE", tok "HERO_TITLE",
        tok "HERO_DESCRIPTION"],
        countOccsS q (u1 ++ (tok "ENGLISH_CONTENT" ++
          (u2 ++ (tok "ENGLISH_CONTENT" ++ u3)))) = 0) →
      countOccsS (tok "ENGLISH_CONTENT") (u1 ++ tok "ENGLISH_CONTENT") = 1 →
      countOccsS (tok "FRENCH_CONTENT")
        (u1 ++ (ec ++ (u2 ++ (tok "ENGLISH_CONTENT" ++ u3)))) = 0 →
      d.french = none →
      replacePlaceholders isEmail
        (u1 ++ (tok "ENGLISH_CONTENT" ++ (u2 ++ (tok "ENGLISH_CONTENT" ++ u3)))) d =
        some (u1 ++ (ec ++ (u2 ++ (tok "ENGLISH_CONTENT" ++ u3))))) ∧
    (∀ (isEmail : Bool) (d : ContentDocument) (u1 u2 u3 : String),
      (∀ q ∈ [tok "TITLE", tok "SUBTITLE", tok "TAGLINE", tok "HERO_TITLE",
        tok "HERO_DESCRIPTION"],
        countOccsS q (u1 ++ (tok "FRENCH_CONTENT" ++
          (u2 ++ (tok "FRENCH_CONTENT" ++ u3)))) = 0) →
      countOccsS (tok "FRENCH_CONTENT") (u1 ++ tok "FRENCH_CONTENT") = 1 →
      d.english = none → d.french = none →
      replacePlaceholders isEmail
        (u1 ++ (tok "FRENCH_CONTENT" ++ (u2 ++ (tok "FRENCH_CONTENT" ++ u3)))) d =
        some (u1 ++ (frenchFallback ++ (u2 ++ (tok "FRENCH_CONTENT" ++ u3))))) := by
  refine ⟨?_, ?_, ?_⟩
  · intro isEmail d u1 u2 u3 hd h1 h2 h3 hq he hf
    have e1 : jsReplaceAll (u1 ++ (tok "TITLE" ++ (u2 ++ (tok "TITLE" ++ u3))))
        (tok "TITLE") d.meta.title =
        u1 ++ (d.meta.title ++ (u2 ++ (d.meta.title ++ u3))) :=
      jsReplaceAll_twice u3 d.meta.title hd (by decide) h1 h2 h3
    have hsp : scalarPass (u1 ++ (tok "TITLE" ++ (u2 ++ (tok "TITLE" ++ u3)))) d =
        u1 ++ (d.meta.title ++ (u2 ++ (d.meta.title ++ u3))) := by
      unfold scalarPass
      rw [e1]
      rw [jsReplaceAll_id d.header.sub_title (hq _ (by simp))]
      rw [jsReplaceAll_id d.header.subtitle (hq _ (by simp))]
      rw [jsReplaceAll_id d.hero.title (hq _ (by simp))]
      rw [jsReplaceAll_id d.hero.description (hq _ (by simp))]
    have e6 : jsReplaceFirst
        (u1 ++ (d.meta.title ++ (u2 ++ (d.meta.title ++ u3))))
        (tok "FRENCH_CONTENT") frenchFallback =
        u1 ++ (d.meta.title ++ (u2 ++ (d.meta.title ++ u3))) :=
      jsReplaceFirst_id frenchFallback (by decide) (hq _ (by simp))
    simp only [replacePlaceholders, he, hf]
    rw [hsp, e6]
  · intro isEmail d u1 u2 u3 secs ec he hgen hd hq h1 hfr hf
    have hsp : scalarPass (u1 ++ (tok "ENGLISH_CONTENT" ++
        (u2 ++ (tok "ENGLISH_CONTENT" ++ u3)))) d =
        u1 ++ (tok "ENGLISH_CONTENT" ++ (u2 ++ (tok "ENGLISH_CONTENT" ++ u3))) := by
      unfold scalarPass
      rw [jsReplaceAll_id d.meta.title (hq _ (by simp))]
      rw [jsReplaceAll_id d.header.sub_title (hq _ (by simp))]
      rw [jsReplaceAll_id d.header.subtitle (hq _ (by simp))]
      rw [jsReplaceAll_id d.hero.title (hq _ (by simp))]
      rw [jsReplaceAll_id d.hero.description (hq _ (by simp))]
    have eE : jsReplaceFirst
        (u1 ++ (tok "ENGLISH_CONTENT" ++ (u2 ++ (tok "ENGLISH_CONTENT" ++ u3))))
        (tok "ENGLISH_CONTENT") ec =
        u1 ++ (ec ++ (u2 ++ (tok "ENGLISH_CONTENT" ++ u3))) :=
      jsReplaceFirst_once (u2 ++ (tok "ENGLISH_CONTENT" ++ u3)) ec hd
        (by decide) h1
    have eF : jsReplaceFirst
        (u1 ++ (ec ++ (u2 ++ (tok "ENGLISH_CONTENT" ++ u3))))
        (tok "FRENCH_CONTENT") frenchFallback =
        u1 ++ (ec ++ (u2 ++ (tok "ENGLISH_CONTENT" ++ u3))) :=
      jsReplaceFirst_id frenchFallback (by decide) hfr
    simp only [replacePlaceholders, he, hgen, hf]
    rw [hsp]
    dsimp only [Option.map]
    rw [eE, eF]
  · intro isEmail d u1 u2 u3 hq h1 he hf
    have hsp : scalarPass (u1 ++ (tok "FRENCH_CONTENT" ++
        (u2 ++ (tok "FRENCH_CONTENT" ++ u3)))) d =
        u1 ++ (tok "FRENCH_CONTENT" ++ (u2 ++ (tok "FRENCH_CONTENT" ++ u3))) := by
      unfold scalarPass
      rw [jsReplaceAll_id d.meta.title (hq _ (by simp))]
      rw [jsReplaceAll_id d.header.sub_title (hq _ (by simp))]
      rw [jsReplaceAll_id d.header.subtitle (hq _ (by simp))]
      rw [jsReplaceAll_id d.hero.title (hq _ (by simp))]
      rw [jsReplaceAll_id d.hero.description (hq _ (by simp))]
    have e6 : jsReplaceFirst
        (u1 ++ (tok "FRENCH_CONTENT" ++ (u2 ++ (tok "FRENCH_CONTENT" ++ u3))))
        (tok "FRENCH_CONTENT") frenchFallback =
        u1 ++ (frenchFallback ++ (u2 ++ (tok "FRENCH_CONTENT" ++ u3))) :=
      jsReplaceFirst_once (u2 ++ (tok "FRENCH_CONTENT" ++ u3)) frenchFallback
        (by decide) (by decide) h1
    simp only [replacePlaceholders, he, hf]
    rw [hsp, e6]

theorem track_token_first_occurrence_only_witness :
    replacePlaceholders false
      ("a" ++ (tok "TITLE" ++ ("b" ++ (tok "TITLE" ++ "c")))) sampleDoc =
      some ("a" ++ (sampleDoc.meta.title ++ ("b" ++ (sampleDoc.meta.title ++ "c")))) ∧
    replacePlaceholders false
      ("a" ++ (tok "ENGLISH_CONTENT" ++ ("b" ++ (tok "ENGLISH_CONTENT" ++ "c")))) engDoc =
      some ("a" ++
        ("<div class=\"content-section\">\n    <h2>TA</h2>\n    <p>CA</p>\n</div>" ++
          ("b" ++ (tok "ENGLISH_CONTENT" ++ "c")))) ∧
    replacePlaceholders false
      ("a" ++ (tok "FRENCH_CONTENT" ++ ("b" ++ (tok "FRENCH_CONTENT" ++ "c")))) sampleDoc =
      some ("a" ++ (frenchFallback ++ ("b" ++ (tok "FRENCH_CONTENT" ++ "c")))) :=
  ⟨track_token_first_occurrence_only.1 false sampleDoc "a" "b" "c"
      (by decide) (by decide) (by decide) (by decide) (by decide) rfl rfl,
   track_token_first_occurrence_only.2.1 false engDoc "a" "b" "c" [sampleIntro]
      "<div class=\"content-section\">\n    <h2>TA</h2>\n    <p>CA</p>\n</div>"
      rfl rfl (by decide) (by decide) (by decide) (by decide) rfl,
   track_token_first_occurrence_only.2.2 false sampleDoc "a" "b" "c"
      (by decide) (by decide) rfl rfl⟩

end Aurora
